import Mathlib

/-!
Verification of the uniform-buffer layout engine and dynamic storage-buffer
manager of the react-shader repository.

Two code areas are embedded:

* the storage-buffer lifecycle of the WebGPU hook variant that supports
  `storageBuffers` (functions `createStorageBuffer`, the per-frame capacity
  check inside `render`, and `packAndUploadStorageBuffer`);
* the uniform layout planner and value packer of `src/hooks/useWebGPU.ts`
  (`inferWgslType`, `calculateUniformLayout`, `packUniformValue` and the
  per-frame packing loop).

JavaScript numbers only get moved around by this code (no arithmetic is
performed on packed floats), so scalar float values are modelled as rationals;
an element read from a slot that JavaScript would fill with a coerced
`undefined` is modelled as 0, and no theorem inspects such a slot.
-/

/- ### Storage buffer model (hook variant with storageBuffers) -/

/-- One growable storage allocation, mirroring the `StorageBufferEntry`
record (the GPU handle and binding slot carry no layout content and are
omitted).  `packingArray` models the `Float32Array` contents. -/
structure StorageBufferEntry where
  currentLength : ℕ
  dataLength : ℕ
  packingArray : List ℚ
deriving DecidableEq, Repr

/-- A vec4 dataset element: one 4-tuple of numbers. -/
abbrev Vec4Q := ℚ × ℚ × ℚ × ℚ

/-- Write the four components of one dataset element at element index `i`
(the body of the packing loops: `arr[off] = data[i][0]` and so on, with
`off = i * 4`). -/
def packVec4At (arr : List ℚ) (i : ℕ) (d : Vec4Q) : List ℚ :=
  (((arr.set (4 * i) d.1).set (4 * i + 1) d.2.1).set
      (4 * i + 2) d.2.2.1).set (4 * i + 3) d.2.2.2

/-- The packing loop `for (let i = 0; i < data.length; i++)`, with `i`
the element index of the next write. -/
def packStorageAux (arr : List ℚ) (i : ℕ) : List Vec4Q → List ℚ
  | [] => arr
  | d :: ds => packStorageAux (packVec4At arr i d) (i + 1) ds

/-- Pack a whole dataset into a float array starting at element 0. -/
def packStorage (arr : List ℚ) (data : List Vec4Q) : List ℚ :=
  packStorageAux arr 0 data

/-- Model of `packAndUploadStorageBuffer`: repack the entry's array in place
and upload `max(entry.dataLength, 1)` elements.  The result is the new array
contents together with the uploaded element count. -/
def packAndUploadStorageBuffer (e : StorageBufferEntry) (data : List Vec4Q) :
    List ℚ × ℕ :=
  (packStorage e.packingArray data, max e.dataLength 1)

/-- Model of `createStorageBuffer`: allocate `max(data.length, 1)` elements
(zero-filled, as a fresh `Float32Array` is) and pack the initial data. -/
def createStorageBuffer (data : List Vec4Q) : StorageBufferEntry :=
  let length := max data.length 1
  { currentLength := length
    dataLength := data.length
    packingArray := packStorage (List.replicate (length * 4) 0) data }

/-- The per-frame storage-buffer capacity check inside `render`:
`requiredLength = max(data.length, 1)`; reallocate when
`requiredLength > entry.currentLength` or
`requiredLength < entry.currentLength / 2` (the JavaScript real division
`r < C / 2` is the integer condition `2 * r < C`); on reallocation the new
capacity is `max(ceil(requiredLength * 1.5), 1)`, where over the naturals
`ceil(r * 1.5) = (3 * r + 1) / 2`, and the packing array is replaced by a
fresh zero-filled one.  In both cases `entry.dataLength` is then set to
`data.length`.  The boolean reports whether a reallocation happened. -/
def capacityCheck (e : StorageBufferEntry) (dataLen : ℕ) :
    StorageBufferEntry × Bool :=
  let required := max dataLen 1
  if required > e.currentLength ∨ 2 * required < e.currentLength then
    let alloc := max ((3 * required + 1) / 2) 1
    ({ currentLength := alloc
       dataLength := dataLen
       packingArray := List.replicate (alloc * 4) 0 }, true)
  else
    ({ e with dataLength := dataLen }, false)

lemma packVec4At_length (arr : List ℚ) (i : ℕ) (d : Vec4Q) :
    (packVec4At arr i d).length = arr.length := by
  simp [packVec4At]

lemma packStorageAux_length (data : List Vec4Q) :
    ∀ (arr : List ℚ) (i : ℕ), (packStorageAux arr i data).length = arr.length := by
  induction data with
  | nil => intro arr i; rfl
  | cons d ds ih =>
      intro arr i
      simp [packStorageAux, ih, packVec4At_length]

lemma packStorage_length (arr : List ℚ) (data : List Vec4Q) :
    (packStorage arr data).length = arr.length :=
  packStorageAux_length data arr 0

lemma getD_set_ne (l : List ℚ) (i j : ℕ) (x : ℚ) (h : i ≠ j) :
    (l.set i x).getD j 0 = l.getD j 0 := by
  simp [List.getD_eq_getElem?_getD, List.getElem?_set_ne h]

lemma packVec4At_getD_ge (arr : List ℚ) (i : ℕ) (d : Vec4Q) (k : ℕ)
    (hk : 4 * (i + 1) ≤ k) :
    (packVec4At arr i d).getD k 0 = arr.getD k 0 := by
  unfold packVec4At
  rw [getD_set_ne _ _ _ _ (by omega), getD_set_ne _ _ _ _ (by omega),
    getD_set_ne _ _ _ _ (by omega), getD_set_ne _ _ _ _ (by omega)]

lemma packStorageAux_getD_ge (data : List Vec4Q) :
    ∀ (arr : List ℚ) (i k : ℕ), 4 * (i + data.length) ≤ k →
      (packStorageAux arr i data).getD k 0 = arr.getD k 0 := by
  induction data with
  | nil => intro arr i k _; rfl
  | cons d ds ih =>
      intro arr i k hk
      simp only [packStorageAux]
      rw [ih (packVec4At arr i d) (i + 1) k (by simp at hk ⊢; omega),
        packVec4At_getD_ge arr i d k (by simp at hk; omega)]

lemma packStorage_getD_ge (arr : List ℚ) (data : List Vec4Q) (k : ℕ)
    (hk : 4 * data.length ≤ k) :
    (packStorage arr data).getD k 0 = arr.getD k 0 :=
  packStorageAux_getD_ge data arr 0 k (by omega)

/-- C2 (amended; see the counterexample for the original): for an entry of
capacity `C ≥ 1`, a per-frame request of any `R` in `[ceil(C/2), C]` never
triggers a reallocation, a request of `C + 1` always does, and a request of
`floor(C/2) - 1` always does once `C ≥ 3`; for `C ≤ 2` the request is clamped
to a minimum of one element and lands inside the stable band, so it does not
trigger. -/
theorem c2_hysteresis (e : StorageBufferEntry) (R : ℕ)
    (hC : 1 ≤ e.currentLength) :
    ((e.currentLength + 1) / 2 ≤ R → R ≤ e.currentLength →
      (capacityCheck e R).2 = false) ∧
    (capacityCheck e (e.currentLength + 1)).2 = true ∧
    (3 ≤ e.currentLength → (capacityCheck e (e.currentLength / 2 - 1)).2 = true) := by
  refine ⟨?_, ?_, ?_⟩
  · intro h1 h2
    have hR : 1 ≤ R := by omega
    simp only [capacityCheck, Nat.max_eq_left hR]
    rw [if_neg (by omega)]
  · simp only [capacityCheck, Nat.max_eq_left (by omega : 1 ≤ e.currentLength + 1)]
    rw [if_pos (by omega)]
  · intro h3
    simp only [capacityCheck]
    rcases Nat.eq_zero_or_pos (e.currentLength / 2 - 1) with h0 | h0
    · rw [h0]
      simp only [Nat.max_eq_right (by omega : 0 ≤ 1)]
      rw [if_pos (by omega)]
    · rw [Nat.max_eq_left h0, if_pos (by omega)]

/-- C2 witness: a concrete entry of capacity 10; requesting 5 (the lower edge
of the stable band) does not reallocate, requesting 11 does, and requesting 4
(= floor(10/2) - 1) does. -/
theorem c2_hysteresis_witness :
    (1 ≤ (10 : ℕ)) ∧
    ((10 + 1) / 2 ≤ (5 : ℕ) → 5 ≤ 10 →
      (capacityCheck ⟨10, 10, List.replicate 40 0⟩ 5).2 = false) ∧
    (capacityCheck ⟨10, 10, List.replicate 40 0⟩ (10 + 1)).2 = true ∧
    (3 ≤ 10 → (capacityCheck ⟨10, 10, List.replicate 40 0⟩ (10 / 2 - 1)).2 = true) :=
  ⟨by norm_num, c2_hysteresis ⟨10, 10, List.replicate 40 0⟩ 5 (by norm_num)⟩

/-- C2 counterexample: for capacity `C = 2`, the claimed "requesting
`floor(C/2) - 1` always triggers reallocation" fails: `floor(2/2) - 1 = 0`,
and requesting 0 elements does not reallocate (the request is clamped to 1,
which lies inside the stable band `[1, 2]`). -/
theorem c2_counterexample :
    (1 : ℕ) ≤ 2 ∧ (2 : ℕ) / 2 - 1 = 0 ∧
    (capacityCheck ⟨2, 2, List.replicate 8 0⟩ 0).2 = false := by
  refine ⟨by norm_num, by norm_num, ?_⟩
  decide

/-- C3: whenever the capacity check reallocates on a requested element count
`R`, the new capacity is `ceil(max(R,1) * 1.5)` — over the naturals
`(3 * max R 1 + 1) / 2` — and is at least `R`. -/
theorem c3_growth_factor (e : StorageBufferEntry) (dataLen : ℕ)
    (e2 : StorageBufferEntry) (h : capacityCheck e dataLen = (e2, true)) :
    e2.currentLength = (3 * max dataLen 1 + 1) / 2 ∧ dataLen ≤ e2.currentLength := by
  have hm : 1 ≤ max dataLen 1 := le_max_right _ _
  have hd : dataLen ≤ max dataLen 1 := le_max_left _ _
  by_cases hcond : max dataLen 1 > e.currentLength ∨ 2 * max dataLen 1 < e.currentLength
  · simp only [capacityCheck, if_pos hcond] at h
    rw [Prod.mk.injEq] at h
    have he : e2 = { currentLength := max ((3 * max dataLen 1 + 1) / 2) 1
                     dataLength := dataLen
                     packingArray := List.replicate (max ((3 * max dataLen 1 + 1) / 2) 1 * 4) 0 } :=
      h.1.symm
    subst he
    constructor
    · simp only
      omega
    · simp only
      omega
  · simp only [capacityCheck, if_neg hcond] at h
    rw [Prod.mk.injEq] at h
    exact absurd h.2 (by simp)

/-- C3 witness: an entry of capacity 10 whose dataset shrinks to 4 elements
reallocates (4 < 10/2) and gets new capacity `ceil(4 * 1.5) = 6 ≥ 4`. -/
theorem c3_growth_factor_witness :
    capacityCheck ⟨10, 10, List.replicate 40 0⟩ 4 =
      (⟨6, 4, List.replicate 24 0⟩, true) ∧
    (6 : ℕ) = (3 * max 4 1 + 1) / 2 ∧ (4 : ℕ) ≤ 6 := by
  refine ⟨by decide, ?_⟩
  exact c3_growth_factor ⟨10, 10, List.replicate 40 0⟩ 4
    ⟨6, 4, List.replicate 24 0⟩ (by decide)

/-- C10: after the per-frame capacity check (starting from any entry whose
packing array holds exactly `currentLength * 4` floats, capacity at least 1 —
as established by `createStorageBuffer` and preserved by every reallocation),
the entry again satisfies that shape invariant, `dataLength` equals the
dataset length and is at most the capacity, the packing loop writes only
indices strictly below the packing array's length (indices at or beyond
`4 * data.length` are untouched and `4 * data.length` fits in the array), the
repacked array keeps its length, the upload covers at most the whole array,
and neither the capacity nor the upload length is ever 0. -/
theorem c10_storage_safety (e : StorageBufferEntry) (data : List Vec4Q)
    (hlen : e.packingArray.length = e.currentLength * 4)
    (hpos : 1 ≤ e.currentLength) :
    ((capacityCheck e data.length).1.packingArray.length =
      (capacityCheck e data.length).1.currentLength * 4) ∧
    (1 ≤ (capacityCheck e data.length).1.currentLength) ∧
    ((capacityCheck e data.length).1.dataLength = data.length) ∧
    ((capacityCheck e data.length).1.dataLength ≤
      (capacityCheck e data.length).1.currentLength) ∧
    (4 * data.length ≤ (capacityCheck e data.length).1.packingArray.length) ∧
    ((packAndUploadStorageBuffer (capacityCheck e data.length).1 data).1.length =
      (capacityCheck e data.length).1.packingArray.length) ∧
    (∀ i, 4 * data.length ≤ i →
      (packAndUploadStorageBuffer (capacityCheck e data.length).1 data).1.getD i 0 =
        (capacityCheck e data.length).1.packingArray.getD i 0) ∧
    ((packAndUploadStorageBuffer (capacityCheck e data.length).1 data).2 * 4 ≤
      (capacityCheck e data.length).1.packingArray.length) ∧
    (1 ≤ (packAndUploadStorageBuffer (capacityCheck e data.length).1 data).2) := by
  have hm : 1 ≤ max data.length 1 := le_max_right _ _
  have hd : data.length ≤ max data.length 1 := le_max_left _ _
  by_cases hcond : max data.length 1 > e.currentLength ∨
      2 * max data.length 1 < e.currentLength
  · simp only [capacityCheck, if_pos hcond, packAndUploadStorageBuffer,
      packStorage_length, List.length_replicate]
    refine ⟨?_, ?_, ?_, ?_, ?_, ?_, ?_, ?_, ?_⟩ <;>
      first
        | trivial
        | omega
        | (intro i hi; exact packStorage_getD_ge _ data i hi)
  · have hle : max data.length 1 ≤ e.currentLength := by omega
    simp only [capacityCheck, if_neg hcond, packAndUploadStorageBuffer,
      packStorage_length]
    refine ⟨?_, ?_, ?_, ?_, ?_, ?_, ?_, ?_, ?_⟩ <;>
      first
        | exact hlen
        | trivial
        | omega
        | (intro i hi; exact packStorage_getD_ge _ data i hi)

/-- A concrete entry (capacity 2, one live element, eight floats) for the C10
witness. -/
def c10entry : StorageBufferEntry := ⟨2, 1, List.replicate 8 0⟩

/-- A concrete one-element dataset for the C10 witness. -/
def c10data : List Vec4Q := [(1, 2, 3, 4)]

/-- C10 witness: the safety theorem applied to a concrete entry and dataset. -/
theorem c10_storage_safety_witness :
    (c10entry.packingArray.length = c10entry.currentLength * 4 ∧
      1 ≤ c10entry.currentLength) ∧
    (((capacityCheck c10entry c10data.length).1.packingArray.length =
      (capacityCheck c10entry c10data.length).1.currentLength * 4) ∧
    (1 ≤ (capacityCheck c10entry c10data.length).1.currentLength) ∧
    ((capacityCheck c10entry c10data.length).1.dataLength = c10data.length) ∧
    ((capacityCheck c10entry c10data.length).1.dataLength ≤
      (capacityCheck c10entry c10data.length).1.currentLength) ∧
    (4 * c10data.length ≤
      (capacityCheck c10entry c10data.length).1.packingArray.length) ∧
    ((packAndUploadStorageBuffer (capacityCheck c10entry c10data.length).1
        c10data).1.length =
      (capacityCheck c10entry c10data.length).1.packingArray.length) ∧
    (∀ i, 4 * c10data.length ≤ i →
      (packAndUploadStorageBuffer (capacityCheck c10entry c10data.length).1
          c10data).1.getD i 0 =
        (capacityCheck c10entry c10data.length).1.packingArray.getD i 0) ∧
    ((packAndUploadStorageBuffer (capacityCheck c10entry c10data.length).1
        c10data).2 * 4 ≤
      (capacityCheck c10entry c10data.length).1.packingArray.length) ∧
    (1 ≤ (packAndUploadStorageBuffer (capacityCheck c10entry c10data.length).1
        c10data).2)) :=
  ⟨⟨by decide, by decide⟩,
    c10_storage_safety c10entry c10data (by decide) (by decide)⟩

/- ### Uniform layout planner and value packer (useWebGPU.ts) -/

/-- A JavaScript runtime value as seen by the shape-sniffing helpers: a
number, an array of further values, or anything else (string, boolean,
object, null, undefined — all of which fail every shape test). -/
inductive JsVal where
  | num (x : ℚ)
  | arr (elems : List JsVal)
  | other

/-- Test `typeof value[0] === "number"` on a list (JavaScript reads slot 0;
an out-of-range read yields undefined, which is not a number). -/
def headIsNum (l : List JsVal) : Bool :=
  match l.head? with
  | some (.num _) => true
  | _ => false

/-- Test `Array.isArray(value[0]) && value[0].length === 4`. -/
def headIsVec4 (l : List JsVal) : Bool :=
  match l.head? with
  | some (.arr m) => m.length == 4
  | _ => false

/-- `isVec2`: an array of length 2 whose first element is a number. -/
def isVec2 (v : JsVal) : Bool :=
  match v with
  | .arr l => l.length == 2 && headIsNum l
  | _ => false

/-- `isVec3`: an array of length 3 whose first element is a number. -/
def isVec3 (v : JsVal) : Bool :=
  match v with
  | .arr l => l.length == 3 && headIsNum l
  | _ => false

/-- `isVec4`: an array of length 4 whose first element is a number. -/
def isVec4 (v : JsVal) : Bool :=
  match v with
  | .arr l => l.length == 4 && headIsNum l
  | _ => false

/-- `isVec4Array`: a non-empty array whose first element is an array of
length 4. -/
def isVec4Array (v : JsVal) : Bool :=
  match v with
  | .arr l => decide (0 < l.length) && headIsVec4 l
  | _ => false

/-- The WGSL base types handled by the layout planner. -/
inductive WgslBaseType where
  | f32
  | vec2f
  | vec3f
  | vec4f
deriving DecidableEq, Repr

/-- Result of `inferWgslType` (the derived `wgslType` string is a pure
projection of these fields and is not modelled). -/
structure InferredType where
  baseType : WgslBaseType
  isArray : Bool
  arrayLength : ℕ
deriving DecidableEq, Repr

/-- `inferWgslType`: classify a runtime value, checking in source order
number, vec4 array, vec4, vec3, vec2, and otherwise failing with the
unsupported-value error. -/
def inferWgslType (v : JsVal) : Except String InferredType :=
  match v with
  | .num _ => .ok ⟨.f32, false, 0⟩
  | .arr l =>
    if isVec4Array (.arr l) then .ok ⟨.vec4f, true, l.length⟩
    else if isVec4 (.arr l) then .ok ⟨.vec4f, false, 0⟩
    else if isVec3 (.arr l) then .ok ⟨.vec3f, false, 0⟩
    else if isVec2 (.arr l) then .ok ⟨.vec2f, false, 0⟩
    else .error "Unsupported uniform value type: object"
  | .other => .error "Unsupported uniform value type: other"

/-- `getTypeAlignment`. -/
def getTypeAlignment : WgslBaseType → ℕ
  | .f32 => 4
  | .vec2f => 8
  | .vec3f => 16
  | .vec4f => 16

/-- `getTypeSize`. -/
def getTypeSize : WgslBaseType → ℕ
  | .f32 => 4
  | .vec2f => 8
  | .vec3f => 12
  | .vec4f => 16

/-- In WGSL uniform buffers, array elements have 16-byte stride. -/
def UNIFORM_ARRAY_STRIDE : ℕ := 16

/-- One field of the computed layout.  The source stores the WGSL type as a
string together with optional `isArray` / `arrayLength` / `elementStride`
fields; here the base type and the array data are kept structurally
(`arrayLength` and `elementStride` are 0 exactly when the source leaves them
undefined). -/
structure UniformField where
  name : String
  baseType : WgslBaseType
  offset : ℕ
  size : ℕ
  isArray : Bool
  arrayLength : ℕ
  elementStride : ℕ
deriving DecidableEq, Repr

/-- The computed layout. -/
structure UniformLayout where
  fields : List UniformField
  bufferSize : ℕ
deriving DecidableEq, Repr

/-- Round `o` up to a multiple of `a`: `Math.ceil(offset / alignment) *
alignment` over the naturals. -/
def alignUp (o a : ℕ) : ℕ := ((o + a - 1) / a) * a

/-- The running state of layout construction: fields emitted so far and the
running byte offset. -/
abbrev BuildState := List UniformField × ℕ

/-- `addField`: align the running offset to the type's alignment, record the
field there with the type's packed size, advance the offset. -/
def addField (st : BuildState) (name : String) (baseType : WgslBaseType) :
    BuildState :=
  let off := alignUp st.2 (getTypeAlignment baseType)
  (st.1 ++ [⟨name, baseType, off, getTypeSize baseType, false, 0, 0⟩],
    off + getTypeSize baseType)

/-- `addArrayField`: align the running offset to 16, record the array field
with size `arrayLength * 16`, advance the offset. -/
def addArrayField (st : BuildState) (name : String) (baseType : WgslBaseType)
    (arrayLength : ℕ) : BuildState :=
  let off := alignUp st.2 16
  let totalSize := arrayLength * UNIFORM_ARRAY_STRIDE
  (st.1 ++ [⟨name, baseType, off, totalSize, true, arrayLength,
    UNIFORM_ARRAY_STRIDE⟩], off + totalSize)

/-- `DEFAULT_UNIFORMS`, in source order. -/
def DEFAULT_UNIFORMS : List (String × WgslBaseType) :=
  [("iTime", .f32), ("iMouseLeftDown", .f32), ("iResolution", .vec2f),
   ("iMouse", .vec2f), ("iMouseNormalized", .vec2f)]

/-- The classification loop over `Object.entries(customUniforms)`: classify
each value in order, propagating the first thrown error (which aborts the
whole layout computation). -/
def classifyAll : List (String × JsVal) → Except String (List (String × InferredType))
  | [] => .ok []
  | p :: ps =>
    match inferWgslType p.2 with
    | .error e => .error e
    | .ok t =>
      match classifyAll ps with
      | .error e => .error e
      | .ok rest => .ok ((p.1, t) :: rest)

/-- Stable insertion of an entry into a list already sorted by descending
alignment: skip past entries of strictly larger alignment, and stop before
the first entry whose alignment is not larger, so earlier input entries stay
ahead of equal-alignment later ones. -/
def insertByAlignDesc (x : String × InferredType) :
    List (String × InferredType) → List (String × InferredType)
  | [] => [x]
  | y :: ys =>
    if getTypeAlignment x.2.baseType < getTypeAlignment y.2.baseType then
      y :: insertByAlignDesc x ys
    else x :: y :: ys

/-- The stable sort by descending alignment, extensionally equal to the
source's stable `Array.prototype.sort` with comparator
`getTypeAlignment(b) - getTypeAlignment(a)`. -/
def sortByAlignDesc : List (String × InferredType) → List (String × InferredType)
  | [] => []
  | x :: xs => insertByAlignDesc x (sortByAlignDesc xs)

/-- The successful path of `calculateUniformLayout`, given the already
classified custom entries: defaults first (in their fixed order), then the
custom entries partitioned into scalar/vector entries and array entries, a
synthesized `<name>_count` f32 scalar appended for each array entry, the
scalar/vector entries stable-sorted by descending alignment and emitted, the
array entries emitted last, and a final buffer size rounded up to a multiple
of 16. -/
def layoutFromClassified (classified : List (String × InferredType)) :
    UniformLayout :=
  let st0 := DEFAULT_UNIFORMS.foldl (fun st p => addField st p.1 p.2) ([], 0)
  let scalarEntries := classified.filter (fun p => !p.2.isArray)
  let arrayEntries := classified.filter (fun p => p.2.isArray)
  let withCounts := scalarEntries ++
    arrayEntries.map (fun p => (p.1 ++ "_count", (⟨.f32, false, 0⟩ : InferredType)))
  let sorted := sortByAlignDesc withCounts
  let st1 := sorted.foldl (fun st p => addField st p.1 p.2.baseType) st0
  let st2 := arrayEntries.foldl
    (fun st p => addArrayField st p.1 p.2.baseType p.2.arrayLength) st1
  ⟨st2.1, alignUp st2.2 16⟩

/-- `calculateUniformLayout`: classify the custom values (the first failure
aborts the whole computation, as the thrown exception does in the source, and
no partial layout escapes), then build the layout. -/
def calculateUniformLayout (customUniforms : List (String × JsVal)) :
    Except String UniformLayout :=
  match classifyAll customUniforms with
  | .error e => .error e
  | .ok classified => .ok (layoutFromClassified classified)

/-- The packing target: a `Float32Array` of a fixed length.  Writes out of
range are discarded, as they are on a JavaScript typed array. -/
structure FloatBuf where
  len : ℕ
  data : ℕ → ℚ

/-- Write one float, dropping the write when the index is out of range. -/
def FloatBuf.set (b : FloatBuf) (i : ℕ) (x : ℚ) : FloatBuf :=
  if i < b.len then ⟨b.len, fun j => if j = i then x else b.data j⟩ else b

/-- A fresh zero-filled buffer (`new Float32Array(n)`). -/
def zeroBuf (n : ℕ) : FloatBuf := ⟨n, fun _ => 0⟩

/-- Numeric view of a value (a non-number coerces to NaN in a typed array;
modelled as 0, and no theorem reads such a slot). -/
def jsNum : JsVal → ℚ
  | .num x => x
  | _ => 0

/-- Array view of a value (non-arrays have no elements). -/
def jsElems : JsVal → List JsVal
  | .arr l => l
  | _ => []

/-- The float JavaScript would read from `l[j]`. -/
def numAt (l : List JsVal) (j : ℕ) : ℚ := jsNum (l.getD j .other)

/-- The vector-packing loop: write each component at consecutive indices. -/
def writeFloats (b : FloatBuf) (start : ℕ) : List ℚ → FloatBuf
  | [] => b
  | x :: xs => writeFloats (b.set start x) (start + 1) xs

/-- Write the four components of one array element (`value[i][0] ..
value[i][3]`). -/
def write4 (b : FloatBuf) (pos : ℕ) (l : List JsVal) : FloatBuf :=
  (((b.set pos (numAt l 0)).set (pos + 1) (numAt l 1)).set
      (pos + 2) (numAt l 2)).set (pos + 3) (numAt l 3)

/-- The array-packing loop: one `write4` per element, advancing by the
stride in floats. -/
def packVec4List (stride : ℕ) (b : FloatBuf) (pos : ℕ) :
    List JsVal → FloatBuf
  | [] => b
  | e :: es => packVec4List stride (write4 b pos (jsElems e)) (pos + stride) es

/-- `packUniformValue`: array fields pack a vec4-array value with the
field's element stride, stopping at `min(value.length, field.arrayLength)`
elements; otherwise a number writes one float, an array whose first element
is a number writes its components contiguously, and anything else writes
nothing. -/
def packUniformValue (f : UniformField) (v : JsVal) (b : FloatBuf) : FloatBuf :=
  let fo := f.offset / 4
  if f.isArray && (f.elementStride != 0) && (f.arrayLength != 0) then
    if isVec4Array v then
      packVec4List (f.elementStride / 4) b fo ((jsElems v).take f.arrayLength)
    else b
  else
    match v with
    | .num x => b.set fo x
    | .arr l => if headIsNum l then writeFloats b fo (l.map jsNum) else b
    | .other => b

/-- The per-frame packing loop of `render`: for each field of the layout,
look its name up in the value map; pack when present, skip when absent. -/
def packFrame (L : UniformLayout) (values : List (String × JsVal))
    (b : FloatBuf) : FloatBuf :=
  L.fields.foldl
    (fun acc f =>
      match values.lookup f.name with
      | some v => packUniformValue f v acc
      | none => acc) b

/-- The concrete scenario of C1: custom map with a scalar and a 3-element
vec4 array. -/
def c1customs : List (String × JsVal) :=
  [("scale", .num 2),
   ("ripples", .arr [.arr [.num 0, .num 0, .num 0, .num 0],
                     .arr [.num 1, .num 1, .num 1, .num 1],
                     .arr [.num 2, .num 2, .num 2, .num 2]])]

/-- C1 counterexample: on the claimed input the computed layout places
`scale` at byte offset 32 and `ripples_count` at 36 — not `ripples_count` at
32 and `scale` at 36 as the claim states (the stable sort keeps the
equal-alignment entries in insertion order: `scale` first, the synthesized
count after it). -/
theorem c1_counterexample :
    ((calculateUniformLayout c1customs).toOption.map fun L =>
        L.fields.map fun f => (f.name, f.offset)) =
      some [("iTime", 0), ("iMouseLeftDown", 4), ("iResolution", 8),
        ("iMouse", 16), ("iMouseNormalized", 24), ("scale", 32),
        ("ripples_count", 36), ("ripples", 48)] ∧
    ¬ (((calculateUniformLayout c1customs).toOption.map fun L =>
        L.fields.map fun f => (f.name, f.offset)) =
      some [("iTime", 0), ("iMouseLeftDown", 4), ("iResolution", 8),
        ("iMouse", 16), ("iMouseNormalized", 24), ("ripples_count", 32),
        ("scale", 36), ("ripples", 48)]) := by
  constructor
  · rfl
  · decide

/-- C1 (amended): for the default field list and the custom map
`{scale, ripples}`, the layout is exactly iTime@0, iMouseLeftDown@4,
iResolution@8, iMouse@16, iMouseNormalized@24, scale@32, ripples_count@36,
ripples@48 (rounded up to 16), with bufferSize 96. -/
theorem c1_layout_scenario :
    calculateUniformLayout c1customs = .ok
      { fields := [⟨"iTime", .f32, 0, 4, false, 0, 0⟩,
                   ⟨"iMouseLeftDown", .f32, 4, 4, false, 0, 0⟩,
                   ⟨"iResolution", .vec2f, 8, 8, false, 0, 0⟩,
                   ⟨"iMouse", .vec2f, 16, 8, false, 0, 0⟩,
                   ⟨"iMouseNormalized", .vec2f, 24, 8, false, 0, 0⟩,
                   ⟨"scale", .f32, 32, 4, false, 0, 0⟩,
                   ⟨"ripples_count", .f32, 36, 4, false, 0, 0⟩,
                   ⟨"ripples", .vec4f, 48, 48, true, 3, 16⟩],
        bufferSize := 96 } := by
  rfl

/- ### Structural invariants of the layout planner -/

lemma getTypeAlignment_pos (t : WgslBaseType) : 0 < getTypeAlignment t := by
  cases t <;> decide

lemma four_dvd_getTypeAlignment (t : WgslBaseType) : 4 ∣ getTypeAlignment t := by
  cases t <;> decide

lemma getTypeSize_mod_four (t : WgslBaseType) : getTypeSize t % 4 = 0 := by
  cases t <;> decide

lemma getTypeSize_pos (t : WgslBaseType) : 4 ≤ getTypeSize t := by
  cases t <;> decide

lemma alignUp_le (o a : ℕ) (ha : 0 < a) : o ≤ alignUp o a := by
  have h := le_smul_ceilDiv (b := o) ha
  rw [smul_eq_mul, Nat.ceilDiv_eq_add_pred_div, mul_comm] at h
  exact h

lemma alignUp_mod (o a : ℕ) : alignUp o a % a = 0 :=
  Nat.mul_mod_left _ a

lemma dvd_alignUp (o a : ℕ) : a ∣ alignUp o a :=
  dvd_mul_left a _

lemma alignUp_mod_four (o a : ℕ) (h : 4 ∣ a) : alignUp o a % 4 = 0 :=
  Nat.mod_eq_zero_of_dvd (h.trans (dvd_alignUp o a))

/-- Every field the planner emits is internally consistent: its offset and
size are multiples of 4, a scalar/vector field has its type's packed size
and an offset aligned to its type's alignment, an array field has stride 16,
size `arrayLength * 16`, a 16-aligned offset and a positive length. -/
def WellPlaced (f : UniformField) : Prop :=
  f.offset % 4 = 0 ∧ f.size % 4 = 0 ∧
  (f.isArray = false →
    f.size = getTypeSize f.baseType ∧ f.offset % getTypeAlignment f.baseType = 0) ∧
  (f.isArray = true →
    f.size = f.arrayLength * 16 ∧ f.elementStride = 16 ∧
    f.offset % 16 = 0 ∧ 1 ≤ f.arrayLength)

/-- Invariant of the running build state: every emitted field is well placed
and ends at or before the running offset, and the fields occupy
non-overlapping, listed-in-increasing-order byte ranges. -/
def FieldsOk (st : BuildState) : Prop :=
  (∀ f ∈ st.1, WellPlaced f ∧ f.offset + f.size ≤ st.2) ∧
  st.1.Pairwise (fun f g => f.offset + f.size ≤ g.offset)

lemma addField_fieldsOk (st : BuildState) (n : String) (bt : WgslBaseType)
    (h : FieldsOk st) : FieldsOk (addField st n bt) := by
  obtain ⟨h1, h2⟩ := h
  have hle : st.2 ≤ alignUp st.2 (getTypeAlignment bt) :=
    alignUp_le _ _ (getTypeAlignment_pos bt)
  constructor
  · intro f hf
    rcases List.mem_append.1 hf with hf | hf
    · obtain ⟨hw, he⟩ := h1 f hf
      exact ⟨hw, by simp only [addField]; omega⟩
    · rcases List.mem_singleton.1 hf with rfl
      refine ⟨⟨alignUp_mod_four _ _ (four_dvd_getTypeAlignment bt),
        getTypeSize_mod_four bt, fun _ => ⟨rfl, alignUp_mod _ _⟩,
        fun hco => by simp at hco⟩, ?_⟩
      simp only [addField]
      exact le_rfl
  · simp only [addField]
    rw [List.pairwise_append]
    refine ⟨h2, List.pairwise_singleton _ _, ?_⟩
    intro f hf g hg
    rcases List.mem_singleton.1 hg with rfl
    have := (h1 f hf).2
    simp only
    omega

lemma addArrayField_fieldsOk (st : BuildState) (n : String)
    (bt : WgslBaseType) (len : ℕ) (hlen : 1 ≤ len) (h : FieldsOk st) :
    FieldsOk (addArrayField st n bt len) := by
  obtain ⟨h1, h2⟩ := h
  have hle : st.2 ≤ alignUp st.2 16 := alignUp_le _ _ (by norm_num)
  constructor
  · intro f hf
    rcases List.mem_append.1 hf with hf | hf
    · obtain ⟨hw, he⟩ := h1 f hf
      exact ⟨hw, by simp only [addArrayField, UNIFORM_ARRAY_STRIDE]; omega⟩
    · rcases List.mem_singleton.1 hf with rfl
      refine ⟨⟨alignUp_mod_four _ _ (by norm_num),
        by simp [UNIFORM_ARRAY_STRIDE, Nat.mul_mod_left, Nat.mul_mod],
        fun hco => by simp at hco,
        fun _ => ⟨by simp [UNIFORM_ARRAY_STRIDE], rfl, alignUp_mod _ _, hlen⟩⟩, ?_⟩
      simp only [addArrayField]
      exact le_rfl
  · simp only [addArrayField]
    rw [List.pairwise_append]
    refine ⟨h2, List.pairwise_singleton _ _, ?_⟩
    intro f hf g hg
    rcases List.mem_singleton.1 hg with rfl
    have := (h1 f hf).2
    simp only
    omega

lemma foldl_addField_fieldsOk {α : Type} (nm : α → String)
    (bt : α → WgslBaseType) (entries : List α) :
    ∀ st : BuildState, FieldsOk st →
      FieldsOk (entries.foldl (fun s p => addField s (nm p) (bt p)) st) := by
  induction entries with
  | nil => intro st h; exact h
  | cons p ps ih =>
      intro st h
      exact ih _ (addField_fieldsOk st (nm p) (bt p) h)

lemma foldl_addArrayField_fieldsOk (entries : List (String × InferredType))
    (hlen : ∀ p ∈ entries, 1 ≤ p.2.arrayLength) :
    ∀ st : BuildState, FieldsOk st →
      FieldsOk (entries.foldl
        (fun s p => addArrayField s p.1 p.2.baseType p.2.arrayLength) st) := by
  induction entries with
  | nil => intro st h; exact h
  | cons p ps ih =>
      intro st h
      exact ih (fun q hq => hlen q (List.mem_cons_of_mem p hq)) _
        (addArrayField_fieldsOk st p.1 p.2.baseType p.2.arrayLength
          (hlen p (List.mem_cons_self p ps)) h)

lemma foldl_addField_mem_mono {α : Type} (nm : α → String)
    (bt : α → WgslBaseType) (entries : List α) :
    ∀ (st : BuildState) (f : UniformField), f ∈ st.1 →
      f ∈ (entries.foldl (fun s p => addField s (nm p) (bt p)) st).1 := by
  induction entries with
  | nil => intro st f hf; exact hf
  | cons p ps ih =>
      intro st f hf
      exact ih _ f (List.mem_append_left _ hf)

lemma foldl_addArrayField_mem_mono (entries : List (String × InferredType)) :
    ∀ (st : BuildState) (f : UniformField), f ∈ st.1 →
      f ∈ (entries.foldl
        (fun s p => addArrayField s p.1 p.2.baseType p.2.arrayLength) st).1 := by
  induction entries with
  | nil => intro st f hf; exact hf
  | cons p ps ih =>
      intro st f hf
      exact ih _ f (List.mem_append_left _ hf)

lemma foldl_addField_mem {α : Type} (nm : α → String)
    (bt : α → WgslBaseType) (entries : List α) :
    ∀ (st : BuildState) (p : α), p ∈ entries →
      ∃ f ∈ (entries.foldl (fun s q => addField s (nm q) (bt q)) st).1,
        f.name = nm p ∧ f.baseType = bt p ∧ f.isArray = false ∧
        f.size = getTypeSize (bt p) := by
  induction entries with
  | nil => intro st p hp; simp at hp
  | cons q qs ih =>
      intro st p hp
      rcases List.mem_cons.1 hp with rfl | hp
      · refine ⟨⟨nm p, bt p, alignUp st.2 (getTypeAlignment (bt p)),
          getTypeSize (bt p), false, 0, 0⟩, ?_, rfl, rfl, rfl, rfl⟩
        exact foldl_addField_mem_mono nm bt qs _ _
          (List.mem_append_right _ (List.mem_singleton_self _))
      · exact ih _ p hp

lemma foldl_addArrayField_mem (entries : List (String × InferredType)) :
    ∀ (st : BuildState) (p : String × InferredType), p ∈ entries →
      ∃ f ∈ (entries.foldl
          (fun s q => addArrayField s q.1 q.2.baseType q.2.arrayLength) st).1,
        f.name = p.1 ∧ f.baseType = p.2.baseType ∧ f.isArray = true ∧
        f.arrayLength = p.2.arrayLength ∧ f.elementStride = 16 ∧
        f.size = p.2.arrayLength * 16 := by
  induction entries with
  | nil => intro st p hp; simp at hp
  | cons q qs ih =>
      intro st p hp
      rcases List.mem_cons.1 hp with rfl | hp
      · refine ⟨⟨p.1, p.2.baseType, alignUp st.2 16,
          p.2.arrayLength * UNIFORM_ARRAY_STRIDE, true, p.2.arrayLength,
          UNIFORM_ARRAY_STRIDE⟩, ?_, rfl, rfl, rfl, rfl, rfl, rfl⟩
        exact foldl_addArrayField_mem_mono qs _ _
          (List.mem_append_right _ (List.mem_singleton_self _))
      · exact ih _ p hp

lemma inferWgslType_array_shape (v : JsVal) (t : InferredType)
    (h : inferWgslType v = .ok t) (ha : t.isArray = true) :
    ∃ l, v = .arr l ∧ t = ⟨.vec4f, true, l.length⟩ ∧ 0 < l.length := by
  cases v with
  | num x =>
      simp only [inferWgslType, Except.ok.injEq] at h
      rw [← h] at ha
      simp at ha
  | arr l =>
      simp only [inferWgslType] at h
      by_cases h4 : isVec4Array (.arr l)
      · rw [if_pos h4] at h
        simp only [Except.ok.injEq] at h
        have hpos : 0 < l.length := by
          simp only [isVec4Array, Bool.and_eq_true, decide_eq_true_eq] at h4
          exact h4.1
        exact ⟨l, rfl, h.symm, hpos⟩
      · rw [if_neg h4] at h
        split_ifs at h with h1 h2 h3
        · simp only [Except.ok.injEq] at h
          rw [← h] at ha
          simp at ha
        · simp only [Except.ok.injEq] at h
          rw [← h] at ha
          simp at ha
        · simp only [Except.ok.injEq] at h
          rw [← h] at ha
          simp at ha
  | other =>
      simp [inferWgslType] at h

lemma classifyAll_ok_mem :
    ∀ (customs : List (String × JsVal)) (classified : List (String × InferredType)),
      classifyAll customs = .ok classified →
      ∀ n v, (n, v) ∈ customs →
        ∃ t, inferWgslType v = .ok t ∧ (n, t) ∈ classified := by
  intro customs
  induction customs with
  | nil => intro cl h n v hm; simp at hm
  | cons p ps ih =>
      intro cl h n v hm
      simp only [classifyAll] at h
      cases hi : inferWgslType p.2 with
      | error e => rw [hi] at h; simp at h
      | ok t =>
          rw [hi] at h
          cases hc : classifyAll ps with
          | error e => rw [hc] at h; simp at h
          | ok rest =>
              rw [hc] at h
              simp only [Except.ok.injEq] at h
              subst h
              rcases List.mem_cons.1 hm with he | hm2
              · subst he
                exact ⟨t, hi, List.mem_cons_self _ _⟩
              · obtain ⟨t2, ht2, hmem⟩ := ih rest hc n v hm2
                exact ⟨t2, ht2, List.mem_cons_of_mem _ hmem⟩

lemma classifyAll_mem_src :
    ∀ (customs : List (String × JsVal)) (classified : List (String × InferredType)),
      classifyAll customs = .ok classified →
      ∀ q ∈ classified, ∃ v, (q.1, v) ∈ customs ∧ inferWgslType v = .ok q.2 := by
  intro customs
  induction customs with
  | nil =>
      intro cl h q hq
      simp only [classifyAll, Except.ok.injEq] at h
      subst h
      simp at hq
  | cons p ps ih =>
      intro cl h q hq
      simp only [classifyAll] at h
      cases hi : inferWgslType p.2 with
      | error e => rw [hi] at h; simp at h
      | ok t =>
          rw [hi] at h
          cases hc : classifyAll ps with
          | error e => rw [hc] at h; simp at h
          | ok rest =>
              rw [hc] at h
              simp only [Except.ok.injEq] at h
              subst h
              rcases List.mem_cons.1 hq with he | hq2
              · subst he
                exact ⟨p.2, List.mem_cons_self _ _, hi⟩
              · obtain ⟨v, hv, hv2⟩ := ih rest hc q hq2
                exact ⟨v, List.mem_cons_of_mem _ hv, hv2⟩

lemma classifyAll_error_of_mem :
    ∀ (customs : List (String × JsVal)) (n : String) (v : JsVal) (e : String),
      (n, v) ∈ customs → inferWgslType v = .error e →
      ∃ e2, classifyAll customs = .error e2 := by
  intro customs
  induction customs with
  | nil => intro n v e hm _; simp at hm
  | cons p ps ih =>
      intro n v e hm hv
      simp only [classifyAll]
      cases hi : inferWgslType p.2 with
      | error e1 => exact ⟨e1, rfl⟩
      | ok t =>
          rcases List.mem_cons.1 hm with he | hm2
          · have h1 : p.2 = v := by rw [← he]
            rw [h1, hv] at hi
            simp at hi
          · obtain ⟨e2, he2⟩ := ih n v e hm2 hv
            rw [he2]
            exact ⟨e2, rfl⟩

lemma layoutFromClassified_structure (classified : List (String × InferredType))
    (hlen : ∀ p ∈ classified.filter (fun p => p.2.isArray), 1 ≤ p.2.arrayLength) :
    (∀ f ∈ (layoutFromClassified classified).fields,
      WellPlaced f ∧ f.offset + f.size ≤ (layoutFromClassified classified).bufferSize) ∧
    (layoutFromClassified classified).fields.Pairwise
      (fun f g => f.offset + f.size ≤ g.offset) ∧
    (layoutFromClassified classified).bufferSize % 16 = 0 := by
  have h0 : FieldsOk (DEFAULT_UNIFORMS.foldl (fun st p => addField st p.1 p.2) ([], 0)) :=
    foldl_addField_fieldsOk Prod.fst Prod.snd DEFAULT_UNIFORMS ([], 0)
      ⟨by simp, List.Pairwise.nil⟩
  have h1 : FieldsOk ((sortByAlignDesc
      ((classified.filter (fun p => !p.2.isArray)) ++
        (classified.filter (fun p => p.2.isArray)).map
          (fun p => (p.1 ++ "_count", (⟨.f32, false, 0⟩ : InferredType))))).foldl
      (fun st p => addField st p.1 p.2.baseType)
      (DEFAULT_UNIFORMS.foldl (fun st p => addField st p.1 p.2) ([], 0))) :=
    foldl_addField_fieldsOk Prod.fst
      (fun p : String × InferredType => p.2.baseType) _ _ h0
  have h2 : FieldsOk (((classified.filter (fun p => p.2.isArray)).foldl
      (fun st p => addArrayField st p.1 p.2.baseType p.2.arrayLength)
      ((sortByAlignDesc
        ((classified.filter (fun p => !p.2.isArray)) ++
          (classified.filter (fun p => p.2.isArray)).map
            (fun p => (p.1 ++ "_count", (⟨.f32, false, 0⟩ : InferredType))))).foldl
        (fun st p => addField st p.1 p.2.baseType)
        (DEFAULT_UNIFORMS.foldl (fun st p => addField st p.1 p.2) ([], 0))))) :=
    foldl_addArrayField_fieldsOk _ hlen _ h1
  refine ⟨?_, h2.2, alignUp_mod _ 16⟩
  intro f hf
  obtain ⟨hw, he⟩ := h2.1 f hf
  refine ⟨hw, le_trans he (alignUp_le _ 16 (by norm_num))⟩

lemma calculateUniformLayout_ok_inv (customs : List (String × JsVal))
    (L : UniformLayout) (hL : calculateUniformLayout customs = .ok L) :
    ∃ classified, classifyAll customs = .ok classified ∧
      L = layoutFromClassified classified := by
  unfold calculateUniformLayout at hL
  cases hcl : classifyAll customs with
  | error e => rw [hcl] at hL; simp at hL
  | ok classified =>
      rw [hcl] at hL
      simp only [Except.ok.injEq] at hL
      exact ⟨classified, rfl, hL.symm⟩

lemma calculateUniformLayout_arrayLen (customs : List (String × JsVal))
    (classified : List (String × InferredType))
    (hcl : classifyAll customs = .ok classified) :
    ∀ p ∈ classified.filter (fun p => p.2.isArray), 1 ≤ p.2.arrayLength := by
  intro p hp
  obtain ⟨hmem, harr⟩ := List.mem_filter.1 hp
  obtain ⟨v, _, hv⟩ := classifyAll_mem_src customs classified hcl p hmem
  obtain ⟨l, _, ht, hpos⟩ := inferWgslType_array_shape v p.2 hv harr
  rw [ht]
  exact hpos

lemma calculateUniformLayout_structure (customs : List (String × JsVal))
    (L : UniformLayout) (hL : calculateUniformLayout customs = .ok L) :
    (∀ f ∈ L.fields, WellPlaced f ∧ f.offset + f.size ≤ L.bufferSize) ∧
    L.fields.Pairwise (fun f g => f.offset + f.size ≤ g.offset) ∧
    L.bufferSize % 16 = 0 := by
  obtain ⟨classified, hcl, rfl⟩ := calculateUniformLayout_ok_inv customs L hL
  exact layoutFromClassified_structure classified
    (calculateUniformLayout_arrayLen customs classified hcl)

/-- C5: in every layout `calculateUniformLayout` returns, each field's byte
offset is a multiple of its element type's required alignment — 4 for f32, 8
for vec2, 16 for vec3 and vec4, and 16 for every array field. -/
theorem c5_field_alignment (customs : List (String × JsVal)) (L : UniformLayout)
    (hL : calculateUniformLayout customs = .ok L) :
    ∀ f ∈ L.fields,
      f.offset % (if f.isArray then 16 else getTypeAlignment f.baseType) = 0 := by
  intro f hf
  obtain ⟨hw, -⟩ := (calculateUniformLayout_structure customs L hL).1 f hf
  obtain ⟨-, -, hsc, har⟩ := hw
  cases hA : f.isArray
  · simp only [hA, Bool.false_eq_true, if_false]
    exact (hsc hA).2
  · simp only [hA, if_true]
    exact (har hA).2.2.1

/-- A concrete custom map (one vec3) for the C5 witness. -/
def c5customs : List (String × JsVal) :=
  [("tint", .arr [.num 1, .num 2, .num 3])]

/-- The layout of `c5customs`. -/
def c5layout : UniformLayout :=
  { fields := [⟨"iTime", .f32, 0, 4, false, 0, 0⟩,
               ⟨"iMouseLeftDown", .f32, 4, 4, false, 0, 0⟩,
               ⟨"iResolution", .vec2f, 8, 8, false, 0, 0⟩,
               ⟨"iMouse", .vec2f, 16, 8, false, 0, 0⟩,
               ⟨"iMouseNormalized", .vec2f, 24, 8, false, 0, 0⟩,
               ⟨"tint", .vec3f, 32, 12, false, 0, 0⟩],
    bufferSize := 48 }

/-- C5 witness: the alignment theorem applied to a concrete map with a vec3
(alignment 16, size 12). -/
theorem c5_field_alignment_witness :
    (calculateUniformLayout c5customs = .ok c5layout) ∧
    (∀ f ∈ c5layout.fields,
      f.offset % (if f.isArray then 16 else getTypeAlignment f.baseType) = 0) :=
  ⟨by rfl, c5_field_alignment c5customs c5layout (by rfl)⟩

/-- C6: in every layout `calculateUniformLayout` returns, the buffer size is
a multiple of 16 and covers every field's byte range. -/
theorem c6_buffer_size (customs : List (String × JsVal)) (L : UniformLayout)
    (hL : calculateUniformLayout customs = .ok L) :
    L.bufferSize % 16 = 0 ∧ ∀ f ∈ L.fields, f.offset + f.size ≤ L.bufferSize := by
  obtain ⟨h1, -, h3⟩ := calculateUniformLayout_structure customs L hL
  exact ⟨h3, fun f hf => (h1 f hf).2⟩

/-- A concrete custom map (one vec4 array of two elements) for the C6
witness. -/
def c6customs : List (String × JsVal) :=
  [("pts", .arr [.arr [.num 1, .num 2, .num 3, .num 4],
                 .arr [.num 5, .num 6, .num 7, .num 8]])]

/-- The layout of `c6customs`. -/
def c6layout : UniformLayout :=
  { fields := [⟨"iTime", .f32, 0, 4, false, 0, 0⟩,
               ⟨"iMouseLeftDown", .f32, 4, 4, false, 0, 0⟩,
               ⟨"iResolution", .vec2f, 8, 8, false, 0, 0⟩,
               ⟨"iMouse", .vec2f, 16, 8, false, 0, 0⟩,
               ⟨"iMouseNormalized", .vec2f, 24, 8, false, 0, 0⟩,
               ⟨"pts_count", .f32, 32, 4, false, 0, 0⟩,
               ⟨"pts", .vec4f, 48, 32, true, 2, 16⟩],
    bufferSize := 80 }

/-- C6 witness: the buffer-size theorem applied to a concrete map with an
array field. -/
theorem c6_buffer_size_witness :
    (calculateUniformLayout c6customs = .ok c6layout) ∧
    (c6layout.bufferSize % 16 = 0 ∧
      ∀ f ∈ c6layout.fields, f.offset + f.size ≤ c6layout.bufferSize) :=
  ⟨by rfl, c6_buffer_size c6customs c6layout (by rfl)⟩

lemma mem_insertByAlignDesc (x z : String × InferredType)
    (l : List (String × InferredType)) (h : z = x ∨ z ∈ l) :
    z ∈ insertByAlignDesc x l := by
  induction l with
  | nil =>
      rcases h with rfl | h
      · exact List.mem_singleton_self _
      · simp at h
  | cons y ys ih =>
      simp only [insertByAlignDesc]
      split_ifs with hc
      · rcases h with rfl | h
        · exact List.mem_cons_of_mem _ (ih (Or.inl rfl))
        · rcases List.mem_cons.1 h with rfl | h2
          · exact List.mem_cons_self _ _
          · exact List.mem_cons_of_mem _ (ih (Or.inr h2))
      · rcases h with rfl | h
        · exact List.mem_cons_self _ _
        · exact List.mem_cons_of_mem _ h

lemma mem_sortByAlignDesc (z : String × InferredType)
    (l : List (String × InferredType)) (h : z ∈ l) :
    z ∈ sortByAlignDesc l := by
  induction l with
  | nil => simp at h
  | cons y ys ih =>
      simp only [sortByAlignDesc]
      rcases List.mem_cons.1 h with rfl | h2
      · exact mem_insertByAlignDesc _ _ _ (Or.inl rfl)
      · exact mem_insertByAlignDesc _ _ _ (Or.inr (ih h2))

/-- C7: for every array-typed entry named `X` of the custom value map, the
computed layout contains a scalar f32 field named `X_count`. -/
theorem c7_count_synthesis (customs : List (String × JsVal)) (L : UniformLayout)
    (hL : calculateUniformLayout customs = .ok L) (n : String) (v : JsVal)
    (t : InferredType) (hmem : (n, v) ∈ customs)
    (ht : inferWgslType v = .ok t) (harr : t.isArray = true) :
    ∃ f ∈ L.fields, f.name = n ++ "_count" ∧ f.isArray = false ∧
      f.baseType = .f32 := by
  obtain ⟨classified, hcl, rfl⟩ := calculateUniformLayout_ok_inv customs L hL
  obtain ⟨t2, ht2, hmem2⟩ := classifyAll_ok_mem customs classified hcl n v hmem
  rw [ht] at ht2
  simp only [Except.ok.injEq] at ht2
  subst ht2
  have harrmem : (n, t) ∈ classified.filter (fun p => p.2.isArray) :=
    List.mem_filter.2 ⟨hmem2, by simp [harr]⟩
  have hcount : (n ++ "_count", (⟨.f32, false, 0⟩ : InferredType)) ∈
      (classified.filter (fun p => p.2.isArray)).map
        (fun p => (p.1 ++ "_count", (⟨.f32, false, 0⟩ : InferredType))) :=
    List.mem_map_of_mem _ harrmem
  have hsorted : (n ++ "_count", (⟨.f32, false, 0⟩ : InferredType)) ∈
      sortByAlignDesc
        ((classified.filter (fun p => !p.2.isArray)) ++
          (classified.filter (fun p => p.2.isArray)).map
            (fun p => (p.1 ++ "_count", (⟨.f32, false, 0⟩ : InferredType)))) :=
    mem_sortByAlignDesc _ _ (List.mem_append_right _ hcount)
  obtain ⟨f, hfmem, hname, hbt, hisarr, -⟩ :=
    foldl_addField_mem Prod.fst
      (fun p : String × InferredType => p.2.baseType) _
      (DEFAULT_UNIFORMS.foldl (fun st p => addField st p.1 p.2) ([], 0)) _ hsorted
  exact ⟨f, foldl_addArrayField_mem_mono _ _ _ hfmem, hname, hisarr, hbt⟩

/-- A concrete custom map (one single-element vec4 array) for the C7
witness. -/
def c7customs : List (String × JsVal) :=
  [("ripple2", .arr [.arr [.num 9, .num 8, .num 7, .num 6]])]

/-- The layout of `c7customs`. -/
def c7layout : UniformLayout :=
  { fields := [⟨"iTime", .f32, 0, 4, false, 0, 0⟩,
               ⟨"iMouseLeftDown", .f32, 4, 4, false, 0, 0⟩,
               ⟨"iResolution", .vec2f, 8, 8, false, 0, 0⟩,
               ⟨"iMouse", .vec2f, 16, 8, false, 0, 0⟩,
               ⟨"iMouseNormalized", .vec2f, 24, 8, false, 0, 0⟩,
               ⟨"ripple2_count", .f32, 32, 4, false, 0, 0⟩,
               ⟨"ripple2", .vec4f, 48, 16, true, 1, 16⟩],
    bufferSize := 64 }

/-- C7 witness: the count-synthesis theorem applied to a concrete map with
one array entry. -/
theorem c7_count_synthesis_witness :
    (calculateUniformLayout c7customs = .ok c7layout) ∧
    (∃ f ∈ c7layout.fields, f.name = "ripple2" ++ "_count" ∧
      f.isArray = false ∧ f.baseType = .f32) :=
  ⟨by rfl,
    c7_count_synthesis c7customs c7layout (by rfl) "ripple2"
      (.arr [.arr [.num 9, .num 8, .num 7, .num 6]]) ⟨.vec4f, true, 1⟩
      (by simp [c7customs]) (by rfl) rfl⟩

lemma headIsNum_headIsVec4 (l : List JsVal) (h : headIsNum l = true) :
    headIsVec4 l = false := by
  unfold headIsNum at h
  unfold headIsVec4
  cases hh : l.head? with
  | none => rfl
  | some e =>
      rw [hh] at h
      cases e with
      | num x => rfl
      | arr m => simp at h
      | other => simp at h

/-- The classification success domain of the actual code: a number, an array
of length 2, 3 or 4 whose first element is a number, or a non-empty array
whose first element is an array of length 4. -/
def CodeSupported (v : JsVal) : Prop :=
  (∃ x, v = .num x) ∨
  (∃ l, v = .arr l ∧ (l.length = 2 ∨ l.length = 3 ∨ l.length = 4) ∧
    headIsNum l = true) ∨
  (∃ l, v = .arr l ∧ 0 < l.length ∧ headIsVec4 l = true)

/-- Modelled from the spec words of C1/C8: the claimed classification
success domain — a number, an array of numbers of length 2, 3 or 4 (every
element a number), or a non-empty array whose first element is a 4-element
array.  Used only to compare the claim against the code's actual domain. -/
def SpecSupported (v : JsVal) : Prop :=
  (∃ x, v = .num x) ∨
  (∃ l, v = .arr l ∧ (l.length = 2 ∨ l.length = 3 ∨ l.length = 4) ∧
    ∀ e ∈ l, ∃ x, e = .num x) ∨
  (∃ l0 tl, v = .arr (.arr l0 :: tl) ∧ l0.length = 4)

/-- C8 counterexample: the value `[1, "x"]` — an array of length 2 whose
first element is a number but whose second is not — is outside the claimed
success domain (it is not an array of numbers), yet `inferWgslType`
classifies it successfully as a vec2, because the code inspects only the
first element. -/
theorem c8_counterexample :
    (∃ t, inferWgslType (.arr [.num 1, .other]) = .ok t) ∧
    ¬ SpecSupported (.arr [.num 1, .other]) := by
  constructor
  · exact ⟨⟨.vec2f, false, 0⟩, by rfl⟩
  · rintro (⟨x, hx⟩ | ⟨l, hl, hlen, hall⟩ | ⟨l0, tl, hl, hlen⟩)
    · exact JsVal.noConfusion hx
    · injection hl with h
      subst h
      obtain ⟨x, hx⟩ := hall .other (by simp)
      exact JsVal.noConfusion hx
    · injection hl with h
      injection h with h1 h2
      exact JsVal.noConfusion h1

/-- C8 (amended): `inferWgslType` succeeds exactly on a number, an array of
length 2, 3 or 4 whose FIRST element is a number, or a non-empty array whose
first element is a 4-element array (later elements are never inspected); on
every other input it raises the unsupported-value error, and when any
entry's classification fails the whole layout computation returns that
failure and no layout — not even a partial one — is produced. -/
theorem c8_classification :
    (∀ v : JsVal, (∃ t, inferWgslType v = .ok t) ↔ CodeSupported v) ∧
    (∀ (customs : List (String × JsVal)) (n : String) (w : JsVal) (e : String),
      (n, w) ∈ customs → inferWgslType w = .error e →
      ∃ e2, calculateUniformLayout customs = .error e2) := by
  constructor
  · intro v
    constructor
    · rintro ⟨t, ht⟩
      cases v with
      | num x => exact Or.inl ⟨x, rfl⟩
      | arr l =>
          simp only [inferWgslType] at ht
          by_cases h4 : isVec4Array (.arr l)
          · right; right
            simp only [isVec4Array, Bool.and_eq_true, decide_eq_true_eq] at h4
            exact ⟨l, rfl, h4.1, h4.2⟩
          · rw [if_neg h4] at ht
            split_ifs at ht with h1 h2 h3
            · simp only [isVec4, Bool.and_eq_true, beq_iff_eq] at h1
              exact Or.inr (Or.inl ⟨l, rfl, Or.inr (Or.inr h1.1), h1.2⟩)
            · simp only [isVec3, Bool.and_eq_true, beq_iff_eq] at h2
              exact Or.inr (Or.inl ⟨l, rfl, Or.inr (Or.inl h2.1), h2.2⟩)
            · simp only [isVec2, Bool.and_eq_true, beq_iff_eq] at h3
              exact Or.inr (Or.inl ⟨l, rfl, Or.inl h3.1, h3.2⟩)
      | other => simp [inferWgslType] at ht
    · intro h
      rcases h with ⟨x, rfl⟩ | ⟨l, rfl, hlen, hnum⟩ | ⟨l, rfl, hpos, hvec⟩
      · exact ⟨⟨.f32, false, 0⟩, rfl⟩
      · have hv4 := headIsNum_headIsVec4 l hnum
        rcases hlen with h2 | h3 | h4
        · exact ⟨⟨.vec2f, false, 0⟩,
            by simp [inferWgslType, isVec4Array, isVec4, isVec3, isVec2,
              h2, hnum, hv4]⟩
        · exact ⟨⟨.vec3f, false, 0⟩,
            by simp [inferWgslType, isVec4Array, isVec4, isVec3, isVec2,
              h3, hnum, hv4]⟩
        · exact ⟨⟨.vec4f, false, 0⟩,
            by simp [inferWgslType, isVec4Array, isVec4, isVec3, isVec2,
              h4, hnum, hv4]⟩
      · exact ⟨⟨.vec4f, true, l.length⟩,
          by simp [inferWgslType, isVec4Array, hpos, hvec]⟩
  · intro customs n w e hmem he
    obtain ⟨e2, he2⟩ := classifyAll_error_of_mem customs n w e hmem he
    refine ⟨e2, ?_⟩
    unfold calculateUniformLayout
    rw [he2]

/-- C8 witness: the classification criterion instantiated at a number, and
the all-or-nothing failure instantiated at a one-entry map holding an
unsupported value. -/
theorem c8_classification_witness :
    ((∃ t, inferWgslType (.num 3) = .ok t) ↔ CodeSupported (.num 3)) ∧
    ((("bad", JsVal.other) ∈ [("bad", JsVal.other)]) ∧
      inferWgslType JsVal.other = .error "Unsupported uniform value type: other" ∧
      ∃ e2, calculateUniformLayout [("bad", JsVal.other)] = .error e2) :=
  ⟨c8_classification.1 (.num 3),
    ⟨by simp, by rfl,
      c8_classification.2 [("bad", .other)] "bad" .other
        "Unsupported uniform value type: other" (by simp) (by rfl)⟩⟩

/- ### Locality and readback of the value packer -/

lemma FloatBuf.len_set (b : FloatBuf) (i : ℕ) (x : ℚ) :
    (b.set i x).len = b.len := by
  unfold FloatBuf.set
  split <;> rfl

lemma FloatBuf.data_set_self (b : FloatBuf) (i : ℕ) (x : ℚ) (h : i < b.len) :
    (b.set i x).data i = x := by
  simp [FloatBuf.set, h]

lemma FloatBuf.data_set_ne (b : FloatBuf) (i : ℕ) (x : ℚ) (j : ℕ) (h : j ≠ i) :
    (b.set i x).data j = b.data j := by
  unfold FloatBuf.set
  split
  · simp [h]
  · rfl

lemma writeFloats_len (vals : List ℚ) :
    ∀ (b : FloatBuf) (start : ℕ), (writeFloats b start vals).len = b.len := by
  induction vals with
  | nil => intro b start; rfl
  | cons x xs ih =>
      intro b start
      simp only [writeFloats]
      rw [ih, FloatBuf.len_set]

lemma writeFloats_data_low (vals : List ℚ) :
    ∀ (b : FloatBuf) (start j : ℕ), j < start →
      (writeFloats b start vals).data j = b.data j := by
  induction vals with
  | nil => intro b start j _; rfl
  | cons x xs ih =>
      intro b start j hj
      simp only [writeFloats]
      rw [ih _ _ _ (by omega), FloatBuf.data_set_ne _ _ _ _ (by omega)]

lemma writeFloats_data_high (vals : List ℚ) :
    ∀ (b : FloatBuf) (start j : ℕ), start + vals.length ≤ j →
      (writeFloats b start vals).data j = b.data j := by
  induction vals with
  | nil => intro b start j _; rfl
  | cons x xs ih =>
      intro b start j hj
      simp only [writeFloats]
      rw [ih _ _ _ (by simp at hj; omega),
        FloatBuf.data_set_ne _ _ _ _ (by simp at hj; omega)]

lemma writeFloats_data_get (vals : List ℚ) :
    ∀ (b : FloatBuf) (start : ℕ), start + vals.length ≤ b.len →
      ∀ j < vals.length, (writeFloats b start vals).data (start + j) = vals.getD j 0 := by
  induction vals with
  | nil => intro b start _ j hj; simp at hj
  | cons x xs ih =>
      intro b start hb j hj
      simp only [writeFloats]
      cases j with
      | zero =>
          rw [writeFloats_data_low xs _ _ _ (by omega)]
          simp only [Nat.add_zero]
          rw [FloatBuf.data_set_self _ _ _ (by simp at hb; omega)]
          rfl
      | succ k =>
          have hb2 : (start + 1) + xs.length ≤ (b.set start x).len := by
            rw [FloatBuf.len_set]
            simp at hb
            omega
          have := ih (b.set start x) (start + 1) hb2 k (by simp at hj; omega)
          rw [show start + (k + 1) = (start + 1) + k by omega]
          rw [this]
          rfl

lemma write4_len (b : FloatBuf) (pos : ℕ) (l : List JsVal) :
    (write4 b pos l).len = b.len := by
  simp [write4, FloatBuf.len_set]

lemma write4_data_low (b : FloatBuf) (pos : ℕ) (l : List JsVal) (j : ℕ)
    (hj : j < pos) : (write4 b pos l).data j = b.data j := by
  unfold write4
  rw [FloatBuf.data_set_ne _ _ _ _ (by omega), FloatBuf.data_set_ne _ _ _ _ (by omega),
    FloatBuf.data_set_ne _ _ _ _ (by omega), FloatBuf.data_set_ne _ _ _ _ (by omega)]

lemma write4_data_high (b : FloatBuf) (pos : ℕ) (l : List JsVal) (j : ℕ)
    (hj : pos + 4 ≤ j) : (write4 b pos l).data j = b.data j := by
  unfold write4
  rw [FloatBuf.data_set_ne _ _ _ _ (by omega), FloatBuf.data_set_ne _ _ _ _ (by omega),
    FloatBuf.data_set_ne _ _ _ _ (by omega), FloatBuf.data_set_ne _ _ _ _ (by omega)]

lemma write4_data_get (b : FloatBuf) (pos : ℕ) (l : List JsVal)
    (hb : pos + 4 ≤ b.len) :
    ∀ j < 4, (write4 b pos l).data (pos + j) = numAt l j := by
  intro j hj
  have h0 : pos < b.len := by omega
  have h1 : pos + 1 < (FloatBuf.set b pos (numAt l 0)).len := by
    rw [FloatBuf.len_set]; omega
  have h2 : pos + 2 <
      ((FloatBuf.set b pos (numAt l 0)).set (pos + 1) (numAt l 1)).len := by
    rw [FloatBuf.len_set, FloatBuf.len_set]; omega
  have h3 : pos + 3 <
      (((FloatBuf.set b pos (numAt l 0)).set (pos + 1) (numAt l 1)).set
        (pos + 2) (numAt l 2)).len := by
    rw [FloatBuf.len_set, FloatBuf.len_set, FloatBuf.len_set]; omega
  interval_cases j
  · unfold write4
    rw [FloatBuf.data_set_ne _ _ _ _ (by omega), FloatBuf.data_set_ne _ _ _ _ (by omega),
      FloatBuf.data_set_ne _ _ _ _ (by omega)]
    simpa using FloatBuf.data_set_self b pos (numAt l 0) h0
  · unfold write4
    rw [FloatBuf.data_set_ne _ _ _ _ (by omega), FloatBuf.data_set_ne _ _ _ _ (by omega)]
    exact FloatBuf.data_set_self _ _ _ h1
  · unfold write4
    rw [FloatBuf.data_set_ne _ _ _ _ (by omega)]
    exact FloatBuf.data_set_self _ _ _ h2
  · unfold write4
    exact FloatBuf.data_set_self _ _ _ h3

lemma packVec4List_len (es : List JsVal) :
    ∀ (stride : ℕ) (b : FloatBuf) (pos : ℕ),
      (packVec4List stride b pos es).len = b.len := by
  induction es with
  | nil => intro stride b pos; rfl
  | cons e es2 ih =>
      intro stride b pos
      simp only [packVec4List]
      rw [ih, write4_len]

lemma packVec4List_data_low (es : List JsVal) :
    ∀ (stride : ℕ) (b : FloatBuf) (pos j : ℕ), j < pos →
      (packVec4List stride b pos es).data j = b.data j := by
  induction es with
  | nil => intro stride b pos j _; rfl
  | cons e es2 ih =>
      intro stride b pos j hj
      simp only [packVec4List]
      rw [ih _ _ _ _ (by omega), write4_data_low _ _ _ _ hj]

lemma packVec4List_data_high (es : List JsVal) :
    ∀ (b : FloatBuf) (pos j : ℕ), pos + 4 * es.length ≤ j →
      (packVec4List 4 b pos es).data j = b.data j := by
  induction es with
  | nil => intro b pos j _; rfl
  | cons e es2 ih =>
      intro b pos j hj
      simp only [packVec4List]
      rw [ih _ _ _ (by simp at hj; omega),
        write4_data_high _ _ _ _ (by simp at hj; omega)]

lemma packVec4List_data_get (es : List JsVal) :
    ∀ (b : FloatBuf) (pos : ℕ), pos + 4 * es.length ≤ b.len →
      ∀ i < es.length, ∀ j < 4,
        (packVec4List 4 b pos es).data (pos + 4 * i + j) =
          numAt (jsElems (es.getD i .other)) j := by
  induction es with
  | nil => intro b pos _ i hi; simp at hi
  | cons e es2 ih =>
      intro b pos hb i hi j hj
      simp only [packVec4List]
      cases i with
      | zero =>
          rw [packVec4List_data_low es2 _ _ _ _ (by omega)]
          simp only [Nat.mul_zero, Nat.add_zero]
          rw [write4_data_get b pos (jsElems e) (by simp at hb; omega) j hj]
          rfl
      | succ k =>
          have hb2 : (pos + 4) + 4 * es2.length ≤ (write4 b pos (jsElems e)).len := by
            rw [write4_len]
            simp at hb
            omega
          have := ih (write4 b pos (jsElems e)) (pos + 4) hb2 k
            (by simp at hi; omega) j hj
          rw [show pos + 4 * (k + 1) + j = (pos + 4) + 4 * k + j by omega]
          rw [this]
          rfl

lemma packUniformValue_len (f : UniformField) (v : JsVal) (b : FloatBuf) :
    (packUniformValue f v b).len = b.len := by
  unfold packUniformValue
  split_ifs with hc hv
  · exact packVec4List_len _ _ _ _
  · rfl
  · cases v with
    | num x => exact FloatBuf.len_set _ _ _
    | arr l =>
        dsimp only
        split_ifs with hn
        · exact writeFloats_len _ _ _
        · rfl
    | other => rfl

lemma packUniformValue_data_low (f : UniformField) (v : JsVal) (b : FloatBuf)
    (j : ℕ) (hj : j < f.offset / 4) :
    (packUniformValue f v b).data j = b.data j := by
  unfold packUniformValue
  split_ifs with hc hv
  · exact packVec4List_data_low _ _ _ _ _ hj
  · rfl
  · cases v with
    | num x => exact FloatBuf.data_set_ne _ _ _ _ (by omega)
    | arr l =>
        dsimp only
        split_ifs with hn
        · exact writeFloats_data_low _ _ _ _ hj
        · rfl
    | other => rfl

/-- A value fits a field when a tuple supplied for a non-array field has no
more components than the field's byte size holds (the only way a pack write
can escape a field's byte range). -/
def FitsField (f : UniformField) (v : JsVal) : Prop :=
  f.isArray = false → ∀ l, v = .arr l → 4 * l.length ≤ f.size

lemma packUniformValue_data_high (f : UniformField) (v : JsVal) (b : FloatBuf)
    (hw : WellPlaced f) (hfit : FitsField f v) (j : ℕ)
    (hj : f.offset / 4 + f.size / 4 ≤ j) :
    (packUniformValue f v b).data j = b.data j := by
  obtain ⟨ho4, hs4, hsc, har⟩ := hw
  unfold packUniformValue
  split_ifs with hc hv
  · have hA : f.isArray = true := by
      simp only [Bool.and_eq_true] at hc
      exact hc.1.1
    obtain ⟨hsize, hstride, -, -⟩ := har hA
    rw [hstride]
    have h4 : (16 : ℕ) / 4 = 4 := by norm_num
    rw [h4]
    apply packVec4List_data_high
    have htake : ((jsElems v).take f.arrayLength).length ≤ f.arrayLength := by
      rw [List.length_take]
      omega
    omega
  · rfl
  · have hA : f.isArray = false := by
      cases hAA : f.isArray
      · rfl
      · obtain ⟨-, hstride, -, hlen⟩ := har hAA
        exfalso
        apply hc
        simp [hAA, hstride]
        omega
    cases v with
    | num x =>
        have hs := getTypeSize_pos f.baseType
        have := (hsc hA).1
        exact FloatBuf.data_set_ne _ _ _ _ (by omega)
    | arr l =>
        dsimp only
        split_ifs with hn
        · apply writeFloats_data_high
          have := hfit hA l rfl
          simp only [List.length_map]
          omega
        · rfl
    | other => rfl

lemma packFields_len (values : List (String × JsVal)) (fs : List UniformField) :
    ∀ b : FloatBuf,
      (fs.foldl (fun acc f =>
        match values.lookup f.name with
        | some v => packUniformValue f v acc
        | none => acc) b).len = b.len := by
  induction fs with
  | nil => intro b; rfl
  | cons f fs2 ih =>
      intro b
      rw [List.foldl_cons, ih]
      cases hlk : values.lookup f.name
      · simp only [hlk]
      · simp only [hlk]
        exact packUniformValue_len _ _ _

lemma packFields_data_untouched (values : List (String × JsVal))
    (fs : List UniformField) :
    ∀ (b : FloatBuf) (i : ℕ),
      (∀ f ∈ fs, ∀ v, values.lookup f.name = some v →
        WellPlaced f ∧ FitsField f v ∧
          (i < f.offset / 4 ∨ f.offset / 4 + f.size / 4 ≤ i)) →
      (fs.foldl (fun acc f =>
        match values.lookup f.name with
        | some v => packUniformValue f v acc
        | none => acc) b).data i = b.data i := by
  induction fs with
  | nil => intro b i _; rfl
  | cons f fs2 ih =>
      intro b i h
      rw [List.foldl_cons]
      rw [ih _ i (fun g hg => h g (List.mem_cons_of_mem f hg))]
      cases hlk : values.lookup f.name with
      | none => simp only [hlk]
      | some v =>
          simp only [hlk]
          obtain ⟨hw, hfit, hside⟩ := h f (List.mem_cons_self f fs2) v hlk
          rcases hside with hlow | hhigh
          · exact packUniformValue_data_low f v b i hlow
          · exact packUniformValue_data_high f v b hw hfit i hhigh

lemma packFields_data_low_all (values : List (String × JsVal))
    (fs : List UniformField) :
    ∀ (b : FloatBuf) (i : ℕ), (∀ g ∈ fs, i < g.offset / 4) →
      (fs.foldl (fun acc f =>
        match values.lookup f.name with
        | some v => packUniformValue f v acc
        | none => acc) b).data i = b.data i := by
  induction fs with
  | nil => intro b i _; rfl
  | cons f fs2 ih =>
      intro b i h
      rw [List.foldl_cons]
      rw [ih _ i (fun g hg => h g (List.mem_cons_of_mem f hg))]
      cases hlk : values.lookup f.name with
      | none => simp only [hlk]
      | some v =>
          simp only [hlk]
          exact packUniformValue_data_low f v b i (h f (List.mem_cons_self f fs2))

/-- C9 (amended): for a layout computed by `calculateUniformLayout` and any
per-frame value map in which every tuple supplied for a non-array field fits
inside that field, the packing loop writes only inside the byte ranges of
fields whose names are present in the map; every index outside those ranges
— in particular the whole region of every absent field — keeps its previous
buffer contents. -/
theorem c9_absent_untouched (customs : List (String × JsVal)) (L : UniformLayout)
    (hL : calculateUniformLayout customs = .ok L)
    (values : List (String × JsVal)) (b : FloatBuf)
    (hfit : ∀ f ∈ L.fields, ∀ v, values.lookup f.name = some v → FitsField f v)
    (i : ℕ)
    (houtside : ∀ f ∈ L.fields, (values.lookup f.name).isSome = true →
      ¬ (f.offset / 4 ≤ i ∧ i < (f.offset + f.size) / 4)) :
    (packFrame L values b).data i = b.data i := by
  have hstruct := (calculateUniformLayout_structure customs L hL).1
  unfold packFrame
  apply packFields_data_untouched
  intro f hf v hlk
  obtain ⟨hw, -⟩ := hstruct f hf
  refine ⟨hw, hfit f hf v hlk, ?_⟩
  have hout := houtside f hf (by rw [hlk]; rfl)
  obtain ⟨ho4, hs4, -, -⟩ := hw
  have hsplit : (f.offset + f.size) / 4 = f.offset / 4 + f.size / 4 := by
    omega
  rw [hsplit] at hout
  omega

/-- A concrete custom map (a single scalar) for the C9 witness. -/
def c9customs : List (String × JsVal) := [("a", .num 1)]

/-- The layout of `c9customs`. -/
def c9layout : UniformLayout :=
  { fields := [⟨"iTime", .f32, 0, 4, false, 0, 0⟩,
               ⟨"iMouseLeftDown", .f32, 4, 4, false, 0, 0⟩,
               ⟨"iResolution", .vec2f, 8, 8, false, 0, 0⟩,
               ⟨"iMouse", .vec2f, 16, 8, false, 0, 0⟩,
               ⟨"iMouseNormalized", .vec2f, 24, 8, false, 0, 0⟩,
               ⟨"a", .f32, 32, 4, false, 0, 0⟩],
    bufferSize := 48 }

/-- C9 witness: packing with an empty value map (every field absent) leaves
index 8 — inside the range of the absent field `a` — untouched. -/
theorem c9_absent_untouched_witness :
    (calculateUniformLayout c9customs = .ok c9layout) ∧
    ((packFrame c9layout [] (zeroBuf 12)).data 8 = (zeroBuf 12).data 8) :=
  ⟨by rfl,
    c9_absent_untouched c9customs c9layout (by rfl) [] (zeroBuf 12)
      (by simp) 8 (by simp)⟩

/-- A custom map with two scalars, for the C9 counterexample layout. -/
def c9xcustoms : List (String × JsVal) := [("a", .num 1), ("b", .num 2)]

/-- The layout of `c9xcustoms`: `a` at byte 32, `b` at byte 36. -/
def c9xlayout : UniformLayout :=
  { fields := [⟨"iTime", .f32, 0, 4, false, 0, 0⟩,
               ⟨"iMouseLeftDown", .f32, 4, 4, false, 0, 0⟩,
               ⟨"iResolution", .vec2f, 8, 8, false, 0, 0⟩,
               ⟨"iMouse", .vec2f, 16, 8, false, 0, 0⟩,
               ⟨"iMouseNormalized", .vec2f, 24, 8, false, 0, 0⟩,
               ⟨"a", .f32, 32, 4, false, 0, 0⟩,
               ⟨"b", .f32, 36, 4, false, 0, 0⟩],
    bufferSize := 48 }

/-- A frame value map supplying a 4-tuple for the f32 field `a` and nothing
for `b`, for the C9 counterexample. -/
def c9xvalues : List (String × JsVal) :=
  [("a", .arr [.num 1, .num 2, .num 3, .num 4])]

/-- C9 counterexample: with the layout computed from `{a: 1, b: 2}` and a
frame map supplying `a = [1,2,3,4]` and no `b`, the field `b` is absent from
the map yet packing changes float index 9 (byte 36, inside the range of
`b`): the oversized tuple written for `a` overflows into the neighbouring
field's region, refuting the claim as stated. -/
theorem c9_counterexample :
    (calculateUniformLayout c9xcustoms = .ok c9xlayout) ∧
    (List.lookup "b" c9xvalues = none) ∧
    (∃ f ∈ c9xlayout.fields, f.name = "b" ∧ f.offset / 4 ≤ 9 ∧
      9 < (f.offset + f.size) / 4) ∧
    ¬ ((packFrame c9xlayout c9xvalues (zeroBuf 12)).data 9 =
      (zeroBuf 12).data 9) := by
  refine ⟨by rfl, by rfl, ?_, ?_⟩
  · exact ⟨⟨"b", .f32, 36, 4, false, 0, 0⟩, by decide, rfl, by norm_num, by norm_num⟩
  · decide

/- ### Round-trip packing -/

/-- Test for a number value. -/
def isNumVal : JsVal → Bool
  | .num _ => true
  | _ => false

/-- Every element of the list is a number. -/
def AllNums (l : List JsVal) : Bool := l.all isNumVal

/-- A 4-tuple of numbers. -/
def isVec4Tuple : JsVal → Bool
  | .arr m => m.length == 4 && AllNums m
  | _ => false

/-- The supported value shapes of the round-trip claim: a number, a 2/3/4
tuple of numbers, or a non-empty array of 4-tuples of numbers. -/
def SupportedVal : JsVal → Bool
  | .num _ => true
  | .arr l =>
      ((l.length == 2 || l.length == 3 || l.length == 4) && AllNums l) ||
      (decide (0 < l.length) && l.all isVec4Tuple)
  | .other => false

/-- How a layout field corresponds to the value it was inferred from: a
number sits in a non-array field of size at least 4; a vec4-array value sits
in an array field whose declared length is the value's length; a plain tuple
sits in a non-array field of exactly 4 bytes per component whose first
element is a number. -/
def FieldMatches (f : UniformField) (v : JsVal) : Prop :=
  match v with
  | .num _ => f.isArray = false ∧ 4 ≤ f.size
  | .arr l =>
      if isVec4Array (.arr l) = true then
        f.isArray = true ∧ f.arrayLength = l.length
      else
        f.isArray = false ∧ f.size = 4 * l.length ∧ headIsNum l = true
  | .other => True

/-- Reading a value back from a buffer at a field's offset: one float for a
number, the components contiguously for a tuple, and 4 floats per element at
16-byte stride for a vec4 array. -/
def readbackOk (f : UniformField) (v : JsVal) (b : FloatBuf) : Prop :=
  match v with
  | .num x => b.data (f.offset / 4) = x
  | .arr l =>
      if isVec4Array (.arr l) = true then
        ∀ i < l.length, ∀ j < 4,
          b.data (f.offset / 4 + 4 * i + j) = numAt (jsElems (l.getD i .other)) j
      else
        ∀ j < l.length, b.data (f.offset / 4 + j) = numAt l j
  | .other => True

lemma map_jsNum_getD (l : List JsVal) (j : ℕ) (h : j < l.length) :
    (l.map jsNum).getD j 0 = numAt l j := by
  unfold numAt
  have h1 : l[j]? = some l[j] := List.getElem?_eq_getElem h
  rw [List.getD_eq_getElem?_getD, List.getElem?_map, h1,
    List.getD_eq_getElem?_getD, h1]
  rfl

lemma infer_vec2 (l : List JsVal) (hn : headIsNum l = true) (h2 : l.length = 2) :
    inferWgslType (.arr l) = .ok ⟨.vec2f, false, 0⟩ := by
  have hv4 := headIsNum_headIsVec4 l hn
  simp [inferWgslType, isVec4Array, isVec4, isVec3, isVec2, hn, hv4, h2]

lemma infer_vec3 (l : List JsVal) (hn : headIsNum l = true) (h3 : l.length = 3) :
    inferWgslType (.arr l) = .ok ⟨.vec3f, false, 0⟩ := by
  have hv4 := headIsNum_headIsVec4 l hn
  simp [inferWgslType, isVec4Array, isVec4, isVec3, isVec2, hn, hv4, h3]

lemma infer_vec4 (l : List JsVal) (hn : headIsNum l = true) (h4 : l.length = 4) :
    inferWgslType (.arr l) = .ok ⟨.vec4f, false, 0⟩ := by
  have hv4 := headIsNum_headIsVec4 l hn
  simp [inferWgslType, isVec4Array, isVec4, isVec3, isVec2, hn, hv4, h4]

lemma infer_vec4arr (l : List JsVal) (hpos : 0 < l.length)
    (hv : headIsVec4 l = true) :
    inferWgslType (.arr l) = .ok ⟨.vec4f, true, l.length⟩ := by
  simp [inferWgslType, isVec4Array, hpos, hv]

lemma lookup_of_mem_nodup (l : List (String × JsVal)) (n : String) (v : JsVal)
    (hnd : (l.map Prod.fst).Nodup) (hm : (n, v) ∈ l) :
    l.lookup n = some v := by
  induction l with
  | nil => simp at hm
  | cons p ps ih =>
      rcases List.mem_cons.1 hm with he | hm2
      · subst he
        simp [List.lookup]
      · have hnotin : p.1 ∉ ps.map Prod.fst := by
          rw [List.map_cons, List.nodup_cons] at hnd
          exact hnd.1
        have hne : (n == p.1) = false := by
          apply beq_eq_false_iff_ne.2
          intro he
          apply hnotin
          rw [← he]
          exact List.mem_map_of_mem Prod.fst hm2
        simp only [List.lookup, hne]
        apply ih _ hm2
        rw [List.map_cons, List.nodup_cons] at hnd
        exact hnd.2

lemma layout_custom_field (customs : List (String × JsVal)) (L : UniformLayout)
    (hL : calculateUniformLayout customs = .ok L) (n : String) (v : JsVal)
    (hmem : (n, v) ∈ customs) (hsup : SupportedVal v = true) :
    ∃ f ∈ L.fields, f.name = n ∧ FieldMatches f v := by
  obtain ⟨classified, hcl, rfl⟩ := calculateUniformLayout_ok_inv customs L hL
  obtain ⟨t, ht, hmem2⟩ := classifyAll_ok_mem customs classified hcl n v hmem
  cases v with
  | num x =>
      have ht2 : t = ⟨.f32, false, 0⟩ := by
        simp only [inferWgslType, Except.ok.injEq] at ht
        exact ht.symm
      subst ht2
      have hscal : (n, (⟨.f32, false, 0⟩ : InferredType)) ∈
          classified.filter (fun p => !p.2.isArray) :=
        List.mem_filter.2 ⟨hmem2, by simp⟩
      have hsorted := mem_sortByAlignDesc _ _
        (List.mem_append_left
          ((classified.filter (fun p => p.2.isArray)).map
            (fun p => (p.1 ++ "_count", (⟨.f32, false, 0⟩ : InferredType)))) hscal)
      obtain ⟨f, hf, hname, hbt, hA, hsz⟩ := foldl_addField_mem Prod.fst
        (fun p : String × InferredType => p.2.baseType) _
        (DEFAULT_UNIFORMS.foldl (fun st p => addField st p.1 p.2) ([], 0)) _ hsorted
      refine ⟨f, foldl_addArrayField_mem_mono _ _ _ hf, hname, ?_⟩
      simp only [FieldMatches]
      refine ⟨hA, ?_⟩
      rw [hsz]
      exact getTypeSize_pos _
  | arr l =>
      simp only [SupportedVal, Bool.or_eq_true, Bool.and_eq_true,
        Bool.or_eq_true, beq_iff_eq, decide_eq_true_eq] at hsup
      rcases hsup with ⟨hlen, hAll⟩ | ⟨hpos, hall4⟩
      · -- plain tuple of numbers
        have hn : headIsNum l = true := by
          cases l with
          | nil => rcases hlen with (h | h) | h <;> simp at h
          | cons e es =>
              have he : isNumVal e = true := by
                have := List.all_eq_true.1 hAll e (List.mem_cons_self _ _)
                exact this
              cases e with
              | num x => rfl
              | arr m => simp [isNumVal] at he
              | other => simp [isNumVal] at he
        have hV : isVec4Array (.arr l) = false := by
          simp [isVec4Array, headIsNum_headIsVec4 l hn]
        have hmatchTail : ∀ (bt : WgslBaseType),
            t = ⟨bt, false, 0⟩ → getTypeSize bt = 4 * l.length →
            ∃ f ∈ (layoutFromClassified classified).fields,
              f.name = n ∧ FieldMatches f (.arr l) := by
          intro bt ht2 hszeq
          subst ht2
          have hscal : (n, (⟨bt, false, 0⟩ : InferredType)) ∈
              classified.filter (fun p => !p.2.isArray) :=
            List.mem_filter.2 ⟨hmem2, by simp⟩
          have hsorted := mem_sortByAlignDesc _ _
            (List.mem_append_left
              ((classified.filter (fun p => p.2.isArray)).map
                (fun p => (p.1 ++ "_count", (⟨.f32, false, 0⟩ : InferredType)))) hscal)
          obtain ⟨f, hf, hname, hbt, hA, hsz⟩ := foldl_addField_mem Prod.fst
            (fun p : String × InferredType => p.2.baseType) _
            (DEFAULT_UNIFORMS.foldl (fun st p => addField st p.1 p.2) ([], 0)) _
            hsorted
          refine ⟨f, foldl_addArrayField_mem_mono _ _ _ hf, hname, ?_⟩
          simp only [FieldMatches, hV, if_false, Bool.false_eq_true]
          exact ⟨hA, by rw [hsz]; exact hszeq, hn⟩
        rcases hlen with (h2 | h3) | h4
        · have ht2 : t = ⟨.vec2f, false, 0⟩ := by
            rw [infer_vec2 l hn h2] at ht
            simp only [Except.ok.injEq] at ht
            exact ht.symm
          exact hmatchTail .vec2f ht2 (by rw [h2]; rfl)
        · have ht2 : t = ⟨.vec3f, false, 0⟩ := by
            rw [infer_vec3 l hn h3] at ht
            simp only [Except.ok.injEq] at ht
            exact ht.symm
          exact hmatchTail .vec3f ht2 (by rw [h3]; rfl)
        · have ht2 : t = ⟨.vec4f, false, 0⟩ := by
            rw [infer_vec4 l hn h4] at ht
            simp only [Except.ok.injEq] at ht
            exact ht.symm
          exact hmatchTail .vec4f ht2 (by rw [h4]; rfl)
      · -- vec4 array
        have hv : headIsVec4 l = true := by
          cases l with
          | nil => simp at hpos
          | cons e es =>
              have he : isVec4Tuple e = true :=
                List.all_eq_true.1 hall4 e (List.mem_cons_self _ _)
              cases e with
              | num x => simp [isVec4Tuple] at he
              | arr m =>
                  simp only [isVec4Tuple, Bool.and_eq_true, beq_iff_eq] at he
                  simp [headIsVec4, he.1]
              | other => simp [isVec4Tuple] at he
        have ht2 : t = ⟨.vec4f, true, l.length⟩ := by
          rw [infer_vec4arr l hpos hv] at ht
          simp only [Except.ok.injEq] at ht
          exact ht.symm
        subst ht2
        have harr : (n, (⟨.vec4f, true, l.length⟩ : InferredType)) ∈
            classified.filter (fun p => p.2.isArray) :=
          List.mem_filter.2 ⟨hmem2, by simp⟩
        obtain ⟨f, hf, hname, hbt, hA, halen, hstr, hsz⟩ :=
          foldl_addArrayField_mem _ _ _ harr
        refine ⟨f, hf, hname, ?_⟩
        have hV : isVec4Array (.arr l) = true := by
          simp [isVec4Array, hpos, hv]
        simp only [FieldMatches, hV, if_true]
        exact ⟨hA, halen⟩
  | other =>
      simp [SupportedVal] at hsup

lemma packUniformValue_readback (f : UniformField) (v : JsVal) (b : FloatBuf)
    (hw : WellPlaced f) (hm : FieldMatches f v)
    (hb : f.offset + f.size ≤ 4 * b.len) :
    readbackOk f v (packUniformValue f v b) := by
  obtain ⟨ho4, hs4, hsc, har⟩ := hw
  cases v with
  | num x =>
      simp only [FieldMatches] at hm
      obtain ⟨hA, hsz⟩ := hm
      simp only [readbackOk]
      unfold packUniformValue
      dsimp only
      rw [if_neg (by simp [hA])]
      exact FloatBuf.data_set_self _ _ _ (by omega)
  | arr l =>
      by_cases hV : isVec4Array (.arr l) = true
      · simp only [FieldMatches, hV, if_true] at hm
        obtain ⟨hA, hlen⟩ := hm
        obtain ⟨hsize, hstride, -, hpos⟩ := har hA
        have hl0 : 0 < l.length := by
          simp only [isVec4Array, Bool.and_eq_true, decide_eq_true_eq] at hV
          exact hV.1
        simp only [readbackOk, hV, if_true]
        intro i hi j hj
        unfold packUniformValue
        dsimp only
        have hlenne : f.arrayLength ≠ 0 := by omega
        have hcond : (f.isArray && (f.elementStride != 0) &&
            (f.arrayLength != 0)) = true := by
          simp [hA, hstride, hlenne]
        rw [if_pos hcond, if_pos hV, hstride]
        have h164 : (16 : ℕ) / 4 = 4 := by norm_num
        rw [h164, hlen]
        rw [show (jsElems (.arr l)).take l.length = l by simp [jsElems]]
        have hbnd : f.offset / 4 + 4 * l.length ≤ b.len := by omega
        exact packVec4List_data_get l b (f.offset / 4) hbnd i hi j hj
      · simp only [FieldMatches, if_neg hV] at hm
        obtain ⟨hA, hsz, hn⟩ := hm
        simp only [readbackOk, if_neg hV]
        intro j hj
        unfold packUniformValue
        dsimp only
        rw [if_neg (by simp [hA]), if_pos hn]
        rw [writeFloats_data_get (l.map jsNum) b (f.offset / 4)
          (by simp only [List.length_map]; omega) j (by simpa using hj)]
        exact map_jsNum_getD l j hj
  | other =>
      simp only [readbackOk]

/-- C4: packing a value map of supported shapes (with its names distinct, as
JavaScript object keys are) into a fresh float buffer of length
`bufferSize / 4` according to the layout computed from that same map, then
reading each entry's floats back from its field's computed offset — one
float for a scalar, the components contiguously for a vector, 4 floats per
element at 16-byte stride for an array — reproduces the original values. -/
theorem c4_roundtrip (customs : List (String × JsVal))
    (hnd : (customs.map Prod.fst).Nodup)
    (hsup : ∀ p ∈ customs, SupportedVal p.2 = true)
    (L : UniformLayout) (hL : calculateUniformLayout customs = .ok L)
    (n : String) (v : JsVal) (hmem : (n, v) ∈ customs) :
    ∃ f ∈ L.fields, f.name = n ∧
      readbackOk f v (packFrame L customs (zeroBuf (L.bufferSize / 4))) := by
  obtain ⟨f, hf, hname, hmatch⟩ :=
    layout_custom_field customs L hL n v hmem (hsup (n, v) hmem)
  obtain ⟨hstruct, hpw, hmod16⟩ := calculateUniformLayout_structure customs L hL
  obtain ⟨hw, hbound⟩ := hstruct f hf
  refine ⟨f, hf, hname, ?_⟩
  obtain ⟨pre, post, hsplit⟩ := List.append_of_mem hf
  have hpost : ∀ g ∈ post, f.offset + f.size ≤ g.offset := by
    rw [hsplit] at hpw
    have h2 := (List.pairwise_append.1 hpw).2.1
    exact (List.pairwise_cons.1 h2).1
  have hmod4 : L.bufferSize % 4 = 0 := by omega
  have hblen : f.offset + f.size ≤ 4 * (zeroBuf (L.bufferSize / 4)).len := by
    simp only [zeroBuf]
    omega
  have hlk : customs.lookup f.name = some v := by
    rw [hname]
    exact lookup_of_mem_nodup customs n v hnd hmem
  unfold packFrame
  rw [hsplit, List.foldl_append, List.foldl_cons]
  simp only [hlk]
  have hb1len : (pre.foldl (fun acc g =>
      match customs.lookup g.name with
      | some w => packUniformValue g w acc
      | none => acc) (zeroBuf (L.bufferSize / 4))).len = L.bufferSize / 4 := by
    rw [packFields_len]
    rfl
  have hread : readbackOk f v (packUniformValue f v
      (pre.foldl (fun acc g =>
        match customs.lookup g.name with
        | some w => packUniformValue g w acc
        | none => acc) (zeroBuf (L.bufferSize / 4)))) := by
    apply packUniformValue_readback f v _ hw hmatch
    rw [hb1len]
    omega
  have hkeep : ∀ idx, idx < (f.offset + f.size) / 4 →
      (post.foldl (fun acc g =>
        match customs.lookup g.name with
        | some w => packUniformValue g w acc
        | none => acc)
        (packUniformValue f v
          (pre.foldl (fun acc g =>
            match customs.lookup g.name with
            | some w => packUniformValue g w acc
            | none => acc) (zeroBuf (L.bufferSize / 4))))).data idx =
      (packUniformValue f v
        (pre.foldl (fun acc g =>
          match customs.lookup g.name with
          | some w => packUniformValue g w acc
          | none => acc) (zeroBuf (L.bufferSize / 4)))).data idx := by
    intro idx hidx
    apply packFields_data_low_all
    intro g hg
    have hge : (f.offset + f.size) / 4 ≤ g.offset / 4 :=
      Nat.div_le_div_right (hpost g hg)
    omega
  obtain ⟨ho4, hs4, hsc, har⟩ := hw
  cases v with
  | num x =>
      simp only [FieldMatches] at hmatch
      simp only [readbackOk] at hread ⊢
      rw [hkeep (f.offset / 4) (by omega)]
      exact hread
  | arr l =>
      by_cases hV : isVec4Array (.arr l) = true
      · simp only [FieldMatches, hV, if_true] at hmatch
        obtain ⟨hA, hlen⟩ := hmatch
        obtain ⟨hsize, -, -, -⟩ := har hA
        simp only [readbackOk, hV, if_true] at hread ⊢
        intro i hi j hj
        rw [hkeep (f.offset / 4 + 4 * i + j) (by omega)]
        exact hread i hi j hj
      · simp only [FieldMatches, if_neg hV] at hmatch
        obtain ⟨hA, hsz, -⟩ := hmatch
        simp only [readbackOk, if_neg hV] at hread ⊢
        intro j hj
        rw [hkeep (f.offset / 4 + j) (by omega)]
        exact hread j hj
  | other =>
      simp only [readbackOk]

/-- The ripples dataset of the C4 witness. -/
def c4ripples : JsVal :=
  .arr [.arr [.num 0, .num 0, .num 0, .num 0],
        .arr [.num 1, .num 1, .num 1, .num 1],
        .arr [.num 2, .num 2, .num 2, .num 2]]

/-- A concrete custom map (a scalar and a 3-element vec4 array) for the C4
witness. -/
def c4customs : List (String × JsVal) := [("scale", .num 2), ("ripples", c4ripples)]

/-- The layout of `c4customs`. -/
def c4layout : UniformLayout :=
  { fields := [⟨"iTime", .f32, 0, 4, false, 0, 0⟩,
               ⟨"iMouseLeftDown", .f32, 4, 4, false, 0, 0⟩,
               ⟨"iResolution", .vec2f, 8, 8, false, 0, 0⟩,
               ⟨"iMouse", .vec2f, 16, 8, false, 0, 0⟩,
               ⟨"iMouseNormalized", .vec2f, 24, 8, false, 0, 0⟩,
               ⟨"scale", .f32, 32, 4, false, 0, 0⟩,
               ⟨"ripples_count", .f32, 36, 4, false, 0, 0⟩,
               ⟨"ripples", .vec4f, 48, 48, true, 3, 16⟩],
    bufferSize := 96 }

/-- C4 witness: the round-trip theorem applied to the ripples entry of a
concrete map. -/
theorem c4_roundtrip_witness :
    ((c4customs.map Prod.fst).Nodup) ∧
    (∀ p ∈ c4customs, SupportedVal p.2 = true) ∧
    (calculateUniformLayout c4customs = .ok c4layout) ∧
    (("ripples", c4ripples) ∈ c4customs) ∧
    (∃ f ∈ c4layout.fields, f.name = "ripples" ∧
      readbackOk f c4ripples
        (packFrame c4layout c4customs (zeroBuf (c4layout.bufferSize / 4)))) :=
  ⟨by decide, by decide, by rfl,
    List.mem_cons_of_mem _ (List.mem_cons_self _ _),
    c4_roundtrip c4customs (by decide) (by decide) c4layout (by rfl)
      "ripples" c4ripples (List.mem_cons_of_mem _ (List.mem_cons_self _ _))⟩
